import Mathlib

/-!
Verification of the interactive command layer of `hopr-chat`.

This file shallowly embeds the two source files under scrutiny:

* `SendMessageFancy.selectIntermediateNodes` (src/unnamed/part_000, lines
  118-206): an interactive loop over a readline interface that builds an
  ordered list of intermediate relay peers.  The loop is modelled as a
  function over the finite list of lines the operator submits.  The
  readline interface's mutable state (prompt, completer, `'line'`
  listeners) is threaded explicitly as a `RlState`; everything printed via
  `console.log` is collected in a message log; each await-phase of the loop
  is recorded in a trace.
* `ListOpenChannels.execute` (src/commands/listOpenChannels.ts): modelled
  over the `Except` monad, where `.error` stands for a rejected promise /
  thrown exception of a collaborator.

External collaborators (`checkPeerIdInput`, `getOpenChannels`,
`toB58String`, `getMyOpenChannelInstances`, `styleValue`, ...) are not part
of the provided sources; they are abstracted as fields of an environment
record, so theorems quantify over every possible collaborator behaviour.
A promise rejection / thrown exception of a collaborator is modelled by an
`Except.error` result (`Option.none` for `checkPeerIdInput`, whose error
text we abstract by recording the offending input line).
-/

/-- Peer identifiers (the `PeerId` object of the `peer-id` package) are
abstracted as natural numbers; `PeerId.equals` is modelled by equality. -/
abbrev PeerId := Nat

/-- Value of the readline interface's `completer` field.  `ext id` is an
arbitrary pre-existing completer (opaque handle); `hop validPeers` is the
iteration-local completer installed at lines 146-148 of the source, which
closes over the `validPeers` string list of the current iteration. -/
inductive CompleterV where
  | ext (id : Nat)
  | hop (validPeers : List String)
deriving DecidableEq

/-- A `'line'` listener of the readline interface.  `ext id` is an
arbitrary pre-existing listener (opaque handle); `hop` is the
iteration-local handler attached inside the `new Promise` at line 152. -/
inductive ListenerV where
  | ext (id : Nat)
  | hop
deriving DecidableEq

/-- The mutable state of the readline interface that
`selectIntermediateNodes` touches: `_prompt`, `completer`, and the ordered
list of `'line'` listeners. -/
structure RlState where
  prompt : String
  completer : CompleterV
  listeners : List ListenerV
deriving DecidableEq

/-- Messages printed to the operator via `console.log` inside
`selectIntermediateNodes`.  `parseError q` stands for the
`styleValue(err.message, 'failure')` line printed when `checkPeerIdInput`
throws on input `q` (the parser's error text is abstracted; the event
records the offending line). -/
inductive Msg where
  | promptSelect (n : Nat)
  | noOpenChannels
  | parseError (line : String)
  | sameAsDestination
  | alreadySelected
deriving DecidableEq

/-- Record of one await-phase of the selection loop: the path accumulated
when the iteration began, and the readline state that is in force while
the loop waits for a line (prompt detached, iteration completer and
iteration `'line'` handler installed). -/
structure IterTrace where
  selectedBefore : List PeerId
  rlAwait : RlState
deriving DecidableEq

/-- How a run of `selectIntermediateNodes` ends.
`returned sel rl` : the async function returns `sel`, leaving the readline
interface in state `rl`.  `hang` : the supplied input lines ran out while
the loop was still awaiting a line (in the real program the promise simply
never resolves).  `raised rl` : an exception escaped the selector (the
`await getOpenChannels(...)` at line 129 has no surrounding try/catch),
leaving the readline interface in state `rl`. -/
inductive Outcome where
  | returned (selected : List PeerId) (rl : RlState)
  | hang
  | raised (rl : RlState)
deriving DecidableEq

/-- Full observable result of a run: outcome, everything printed to the
operator, and the trace of await-phases. -/
structure LoopOut where
  out : Outcome
  log : List Msg
  trace : List IterTrace
deriving DecidableEq

/-- Environment of collaborators and constants captured by
`selectIntermediateNodes`:
`checkPeerIdInput` is the peer-identifier parser from `../utils` (`none`
models a thrown error); `getOpenChannels` is the peer-directory query from
`../utils` (`Except.error` models a rejected promise); `toB58String`
renders a peer identifier; `selfPeerId` is `this.node.peerInfo.id`;
`destination` is the message recipient; `maxHops` models the imported
`MAX_HOPS` constant. -/
structure Env where
  checkPeerIdInput : String → Option PeerId
  getOpenChannels : PeerId → Except Unit (List PeerId)
  toB58String : PeerId → String
  selfPeerId : PeerId
  destination : PeerId
  maxHops : Nat

/-- The reference peer of an iteration (line 128):
`selected.length > 0 ? selected[selected.length - 1] : this.node.peerInfo.id`. -/
def refPeer (env : Env) (selected : List PeerId) : PeerId :=
  (selected.getLast?).getD env.selfPeerId

/-- The readline state in force while the loop awaits a line: empty prompt
(line 144), the iteration completer over `vp` (lines 146-148), and exactly
the iteration `'line'` handler attached (lines 142, 152). -/
def rlAwaitState (vp : List String) : RlState :=
  ⟨"", CompleterV.hop vp, [ListenerV.hop]⟩

/-- The `'line'` handler attached at lines 152-170, driven over the list of
submitted lines.  Returns `(some (res, rest), log)` when the promise
resolves with `res` (`none` = empty-line resolution, `some p` = parsed
peer) leaving `rest` unconsumed, or `(none, log)` when the lines run out
first; `log` collects the parse-error reports printed along the way.
The emptiness test is the source's
`query == null || query === '\n' || query === '' || query.length == 0`
(the `null` guard is unreachable for a string-valued line event). -/
def awaitLine (env : Env) : List String → Option (Option PeerId × List String) × List Msg
  | [] => (none, [])
  | q :: rest =>
    if q = "\n" ∨ q = "" ∨ q.length = 0 then
      (some (none, rest), [])
    else
      match env.checkPeerIdInput q with
      | none =>
        let r := awaitLine env rest
        (r.1, Msg.parseError q :: r.2)
      | some p => (some (some p, rest), [])

theorem awaitLine_rest_lt (env : Env) :
    ∀ (ins : List String) (res : Option PeerId) (rest : List String) (log : List Msg),
      awaitLine env ins = (some (res, rest), log) → rest.length < ins.length := by
  intro ins
  induction ins with
  | nil => intro res rest log h; simp [awaitLine] at h
  | cons q tl ih =>
    intro res rest log h
    rw [awaitLine] at h
    split at h
    · simp only [Prod.mk.injEq, Option.some.injEq] at h
      obtain ⟨⟨-, hrest⟩, -⟩ := h
      subst hrest
      simp
    · split at h
      · simp only [Prod.mk.injEq] at h
        obtain ⟨h1, -⟩ := h
        have := ih res rest (awaitLine env tl).2 (by rw [← h1])
        exact Nat.lt_succ_of_lt this
      · simp only [Prod.mk.injEq, Option.some.injEq] at h
        obtain ⟨⟨-, hrest⟩, -⟩ := h
        subst hrest
        simp

/-- Shallow embedding of the `while (!done)` loop of
`selectIntermediateNodes` (lines 123-203), started with accumulated path
`selected` and readline state `rl`, consuming the submitted lines `ins`.
Each iteration: print the selection prompt (line 124), query the peer
directory for the reference peer (lines 128-130; a rejection escapes the
selector), possibly print the no-open-channels notice (lines 132-134),
save the prompt/completer/listeners and install the iteration-local ones
(lines 136-148), await one resolution (lines 151-171), remove the
iteration handler (line 172), classify the resolution (lines 174-190),
check capacity against `MAX_HOPS - 1` (lines 192-195), restore the saved
prompt/completer/listeners (lines 197-202), and loop unless done. -/
def selectLoop (env : Env) (rl : RlState) (selected : List PeerId) (ins : List String) : LoopOut :=
  let log0 : List Msg := [Msg.promptSelect selected.length]
  match env.getOpenChannels (refPeer env selected) with
  | Except.error _ => ⟨Outcome.raised rl, log0, []⟩
  | Except.ok chans =>
    let vp : List String := chans.map env.toB58String
    let log1 : List Msg := log0 ++ (if vp.isEmpty then [Msg.noOpenChannels] else [])
    let oldPrompt := rl.prompt
    let oldCompleter := rl.completer
    let oldListeners := rl.listeners
    let t : IterTrace := ⟨selected, rlAwaitState vp⟩
    match h : awaitLine env ins with
    | (none, alog) => ⟨Outcome.hang, log1 ++ alog, [t]⟩
    | (some (res, rest), alog) =>
      let step : List PeerId × List Msg :=
        match res with
        | none => (selected, [])
        | some p =>
          if p = env.destination then (selected, [Msg.sameAsDestination])
          else if p ∈ selected then (selected, [Msg.alreadySelected])
          else (selected ++ [p], [])
      let done : Bool := res.isNone || decide (env.maxHops - 1 ≤ step.1.length)
      let rlRestored : RlState := ⟨oldPrompt, oldCompleter, oldListeners⟩
      if done then ⟨Outcome.returned step.1 rlRestored, log1 ++ alog ++ step.2, [t]⟩
      else
        let rec2 := selectLoop env rlRestored step.1 rest
        ⟨rec2.out, log1 ++ alog ++ step.2 ++ rec2.log, t :: rec2.trace⟩
termination_by ins.length
decreasing_by exact awaitLine_rest_lt env ins res rest alog h

/-- `selectIntermediateNodes(rl, destination)` (line 118): the loop starts
with `done = false` and `selected = []` (lines 119-120) and finally
returns `selected` (line 205). -/
def selectIntermediateNodes (env : Env) (rl : RlState) (ins : List String) : LoopOut :=
  selectLoop env rl [] ins

/-- Header printed at the start of an iteration (lines 124-134), given the
open-channel query result `chans`. -/
def headerMsgs (env : Env) (selected : List PeerId) (chans : List PeerId) : List Msg :=
  Msg.promptSelect selected.length ::
    (if (chans.map env.toB58String).isEmpty then [Msg.noOpenChannels] else [])

theorem awaitLine_cons_finish (env : Env) (q : String) (rest : List String)
    (hq : q = "\n" ∨ q = "" ∨ q.length = 0) :
    awaitLine env (q :: rest) = (some (none, rest), []) := by
  rw [awaitLine]; rw [if_pos hq]

theorem awaitLine_cons_parsed (env : Env) (q : String) (rest : List String) (p : PeerId)
    (hq : ¬(q = "\n" ∨ q = "" ∨ q.length = 0)) (hp : env.checkPeerIdInput q = some p) :
    awaitLine env (q :: rest) = (some (some p, rest), []) := by
  rw [awaitLine]; rw [if_neg hq, hp]

theorem awaitLine_cons_failed (env : Env) (q : String) (rest : List String)
    (hq : ¬(q = "\n" ∨ q = "" ∨ q.length = 0)) (hp : env.checkPeerIdInput q = none) :
    awaitLine env (q :: rest) =
      ((awaitLine env rest).1, Msg.parseError q :: (awaitLine env rest).2) := by
  rw [awaitLine]; rw [if_neg hq, hp]

/-- Lines 128-129: a rejected open-channels query escapes the selector
before any prompt swap happens; only the selection prompt was printed. -/
theorem selectLoop_raise (env : Env) (rl : RlState) (selected : List PeerId)
    (ins : List String) (e : Unit)
    (hoc : env.getOpenChannels (refPeer env selected) = Except.error e) :
    selectLoop env rl selected ins =
      ⟨Outcome.raised rl, [Msg.promptSelect selected.length], []⟩ := by
  rw [selectLoop.eq_def, hoc]

/-- If the submitted lines run out while the loop is awaiting input, the
run hangs with the iteration-local readline state still installed. -/
theorem selectLoop_hang_of (env : Env) (rl : RlState) (selected : List PeerId)
    (ins : List String) (chans : List PeerId) (alog : List Msg)
    (hoc : env.getOpenChannels (refPeer env selected) = Except.ok chans)
    (ha : awaitLine env ins = (none, alog)) :
    selectLoop env rl selected ins =
      ⟨Outcome.hang, headerMsgs env selected chans ++ alog,
       [⟨selected, rlAwaitState (chans.map env.toB58String)⟩]⟩ := by
  rw [selectLoop.eq_def, hoc]
  dsimp only
  split
  · next alog' heq =>
    rw [ha] at heq
    simp only [Prod.mk.injEq] at heq
    obtain ⟨-, halog⟩ := heq
    subst halog
    simp [headerMsgs]
  · next res rest1 alog' heq =>
    rw [ha] at heq
    simp at heq

/-- An empty-line resolution: the loop ends, returning the accumulated
path with the readline state restored. -/
theorem selectLoop_finish_of (env : Env) (rl : RlState) (selected : List PeerId)
    (ins : List String) (rest : List String) (chans : List PeerId) (alog : List Msg)
    (hoc : env.getOpenChannels (refPeer env selected) = Except.ok chans)
    (ha : awaitLine env ins = (some (none, rest), alog)) :
    selectLoop env rl selected ins =
      ⟨Outcome.returned selected rl, headerMsgs env selected chans ++ alog,
       [⟨selected, rlAwaitState (chans.map env.toB58String)⟩]⟩ := by
  rw [selectLoop.eq_def, hoc]
  dsimp only
  split
  · next alog' heq => rw [ha] at heq; simp at heq
  · next res rest1 alog' heq =>
    rw [ha] at heq
    simp only [Prod.mk.injEq, Option.some.injEq] at heq
    obtain ⟨⟨hres, hrest⟩, halog⟩ := heq
    subst hres; subst hrest; subst halog
    simp [headerMsgs]

/-- The rejection message printed for a parsed peer that is the
destination (line 181) or already selected (line 185). -/
def rejectMsg (env : Env) (p : PeerId) : Msg :=
  if p = env.destination then Msg.sameAsDestination else Msg.alreadySelected

/-- A parsed peer equal to the destination or already selected is
rejected; below capacity the loop then runs again on the remaining
lines with the path unchanged. -/
theorem selectLoop_reject_of (env : Env) (rl : RlState) (selected : List PeerId)
    (ins : List String) (rest : List String) (chans : List PeerId) (alog : List Msg)
    (p : PeerId)
    (hoc : env.getOpenChannels (refPeer env selected) = Except.ok chans)
    (ha : awaitLine env ins = (some (some p, rest), alog))
    (hrej : p = env.destination ∨ p ∈ selected)
    (hcap : ¬(env.maxHops - 1 ≤ selected.length)) :
    selectLoop env rl selected ins =
      ⟨(selectLoop env rl selected rest).out,
       headerMsgs env selected chans ++ alog ++ [rejectMsg env p] ++
         (selectLoop env rl selected rest).log,
       ⟨selected, rlAwaitState (chans.map env.toB58String)⟩ ::
         (selectLoop env rl selected rest).trace⟩ := by
  rw [selectLoop.eq_def, hoc]
  dsimp only
  split
  · next alog' heq => rw [ha] at heq; simp at heq
  · next res rest1 alog' heq =>
    rw [ha] at heq
    simp only [Prod.mk.injEq, Option.some.injEq] at heq
    obtain ⟨⟨hres, hrest⟩, halog⟩ := heq
    subst hres; subst hrest; subst halog
    have hstep :
        (if p = env.destination then (selected, [Msg.sameAsDestination])
         else if p ∈ selected then (selected, [Msg.alreadySelected])
         else (selected ++ [p], ([] : List Msg))) =
          (selected, [rejectMsg env p]) := by
      rcases hrej with h | h
      · rw [if_pos h, rejectMsg, if_pos h]
      · rw [rejectMsg]
        by_cases hd : p = env.destination
        · rw [if_pos hd, if_pos hd]
        · rw [if_neg hd, if_pos h, if_neg hd]
    dsimp only
    rw [hstep]
    simp only [Option.isNone_some, Bool.false_or, decide_eq_true_eq, if_neg hcap,
      headerMsgs]
    simp

/-- A parsed peer equal to the destination or already selected is
rejected; if the path has already reached capacity the loop ends with
the path unchanged. -/
theorem selectLoop_reject_done_of (env : Env) (rl : RlState) (selected : List PeerId)
    (ins : List String) (rest : List String) (chans : List PeerId) (alog : List Msg)
    (p : PeerId)
    (hoc : env.getOpenChannels (refPeer env selected) = Except.ok chans)
    (ha : awaitLine env ins = (some (some p, rest), alog))
    (hrej : p = env.destination ∨ p ∈ selected)
    (hcap : env.maxHops - 1 ≤ selected.length) :
    selectLoop env rl selected ins =
      ⟨Outcome.returned selected rl,
       headerMsgs env selected chans ++ alog ++ [rejectMsg env p],
       [⟨selected, rlAwaitState (chans.map env.toB58String)⟩]⟩ := by
  rw [selectLoop.eq_def, hoc]
  dsimp only
  split
  · next alog' heq => rw [ha] at heq; simp at heq
  · next res rest1 alog' heq =>
    rw [ha] at heq
    simp only [Prod.mk.injEq, Option.some.injEq] at heq
    obtain ⟨⟨hres, hrest⟩, halog⟩ := heq
    subst hres; subst hrest; subst halog
    have hstep :
        (if p = env.destination then (selected, [Msg.sameAsDestination])
         else if p ∈ selected then (selected, [Msg.alreadySelected])
         else (selected ++ [p], ([] : List Msg))) =
          (selected, [rejectMsg env p]) := by
      rcases hrej with h | h
      · rw [if_pos h, rejectMsg, if_pos h]
      · rw [rejectMsg]
        by_cases hd : p = env.destination
        · rw [if_pos hd, if_pos hd]
        · rw [if_neg hd, if_pos h, if_neg hd]
    dsimp only
    rw [hstep]
    simp only [Option.isNone_some, Bool.false_or, decide_eq_true_eq, if_pos hcap,
      headerMsgs]
    simp

/-- A parsed peer that is neither the destination nor already selected is
appended; if the path then reaches `MAX_HOPS - 1`, the loop ends. -/
theorem selectLoop_accept_done_of (env : Env) (rl : RlState) (selected : List PeerId)
    (ins : List String) (rest : List String) (chans : List PeerId) (alog : List Msg)
    (p : PeerId)
    (hoc : env.getOpenChannels (refPeer env selected) = Except.ok chans)
    (ha : awaitLine env ins = (some (some p, rest), alog))
    (hdest : p ≠ env.destination) (hmem : p ∉ selected)
    (hcap : env.maxHops - 1 ≤ selected.length + 1) :
    selectLoop env rl selected ins =
      ⟨Outcome.returned (selected ++ [p]) rl,
       headerMsgs env selected chans ++ alog,
       [⟨selected, rlAwaitState (chans.map env.toB58String)⟩]⟩ := by
  rw [selectLoop.eq_def, hoc]
  dsimp only
  split
  · next alog' heq => rw [ha] at heq; simp at heq
  · next res rest1 alog' heq =>
    rw [ha] at heq
    simp only [Prod.mk.injEq, Option.some.injEq] at heq
    obtain ⟨⟨hres, hrest⟩, halog⟩ := heq
    subst hres; subst hrest; subst halog
    dsimp only
    rw [if_neg hdest, if_neg hmem]
    have hcap' : env.maxHops - 1 ≤ (selected ++ [p]).length := by
      simpa using hcap
    simp only [Option.isNone_some, Bool.false_or, decide_eq_true_eq, if_pos hcap',
      headerMsgs]
    simp

/-- A parsed peer that is neither the destination nor already selected is
appended; below capacity the loop then runs again on the remaining lines
with the extended path. -/
theorem selectLoop_accept_cont_of (env : Env) (rl : RlState) (selected : List PeerId)
    (ins : List String) (rest : List String) (chans : List PeerId) (alog : List Msg)
    (p : PeerId)
    (hoc : env.getOpenChannels (refPeer env selected) = Except.ok chans)
    (ha : awaitLine env ins = (some (some p, rest), alog))
    (hdest : p ≠ env.destination) (hmem : p ∉ selected)
    (hcap : ¬(env.maxHops - 1 ≤ selected.length + 1)) :
    selectLoop env rl selected ins =
      ⟨(selectLoop env rl (selected ++ [p]) rest).out,
       headerMsgs env selected chans ++ alog ++
         (selectLoop env rl (selected ++ [p]) rest).log,
       ⟨selected, rlAwaitState (chans.map env.toB58String)⟩ ::
         (selectLoop env rl (selected ++ [p]) rest).trace⟩ := by
  rw [selectLoop.eq_def, hoc]
  dsimp only
  split
  · next alog' heq => rw [ha] at heq; simp at heq
  · next res rest1 alog' heq =>
    rw [ha] at heq
    simp only [Prod.mk.injEq, Option.some.injEq] at heq
    obtain ⟨⟨hres, hrest⟩, halog⟩ := heq
    subst hres; subst hrest; subst halog
    dsimp only
    rw [if_neg hdest, if_neg hmem]
    have hcap' : ¬(env.maxHops - 1 ≤ (selected ++ [p]).length) := by
      simpa using hcap
    simp only [Option.isNone_some, Bool.false_or, decide_eq_true_eq, if_neg hcap',
      headerMsgs]
    simp

/-- Whenever the loop returns, the readline state handed back is exactly
the one the loop started with: every iteration restores the saved
prompt, completer and listeners (lines 197-202). -/
theorem selectLoop_restores_rl (env : Env) (rl : RlState) (selected : List PeerId)
    (ins : List String) :
    ∀ sel' rl', (selectLoop env rl selected ins).out = Outcome.returned sel' rl' →
      rl' = rl := by
  intro sel' rl' hout
  rcases hoc : env.getOpenChannels (refPeer env selected) with e | chans
  · rw [selectLoop_raise env rl selected ins e hoc] at hout; simp at hout
  · rcases ha : awaitLine env ins with ⟨_ | ⟨_ | p, rest⟩, alog⟩
    · rw [selectLoop_hang_of env rl selected ins chans alog hoc ha] at hout
      simp at hout
    · rw [selectLoop_finish_of env rl selected ins rest chans alog hoc ha] at hout
      injection hout with h1 h2
      exact h2.symm
    · by_cases hrej : p = env.destination ∨ p ∈ selected
      · by_cases hcap : env.maxHops - 1 ≤ selected.length
        · rw [selectLoop_reject_done_of env rl selected ins rest chans alog p hoc ha hrej hcap] at hout
          injection hout with h1 h2
          exact h2.symm
        · rw [selectLoop_reject_of env rl selected ins rest chans alog p hoc ha hrej hcap] at hout
          exact selectLoop_restores_rl env rl selected rest sel' rl' hout
      · push_neg at hrej
        obtain ⟨hdest, hmem⟩ := hrej
        by_cases hcap : env.maxHops - 1 ≤ selected.length + 1
        · rw [selectLoop_accept_done_of env rl selected ins rest chans alog p hoc ha hdest hmem hcap] at hout
          injection hout with h1 h2
          exact h2.symm
        · rw [selectLoop_accept_cont_of env rl selected ins rest chans alog p hoc ha hdest hmem hcap] at hout
          exact selectLoop_restores_rl env rl (selected ++ [p]) rest sel' rl' hout
termination_by ins.length
decreasing_by
  all_goals exact awaitLine_rest_lt env ins _ _ _ ha

/-- Invariant of the selection loop: starting strictly below capacity with
a duplicate-free path not containing the destination, any returned path is
duplicate-free, avoids the destination, and stays within `MAX_HOPS - 1`. -/
theorem selectLoop_invariant (env : Env) (rl : RlState) (selected : List PeerId)
    (ins : List String)
    (hnd : selected.Nodup) (hdt : env.destination ∉ selected)
    (hlen : selected.length < env.maxHops - 1) :
    ∀ sel' rl', (selectLoop env rl selected ins).out = Outcome.returned sel' rl' →
      sel'.Nodup ∧ env.destination ∉ sel' ∧ sel'.length ≤ env.maxHops - 1 := by
  intro sel' rl' hout
  rcases hoc : env.getOpenChannels (refPeer env selected) with e | chans
  · rw [selectLoop_raise env rl selected ins e hoc] at hout; simp at hout
  · rcases ha : awaitLine env ins with ⟨_ | ⟨_ | p, rest⟩, alog⟩
    · rw [selectLoop_hang_of env rl selected ins chans alog hoc ha] at hout
      simp at hout
    · rw [selectLoop_finish_of env rl selected ins rest chans alog hoc ha] at hout
      injection hout with h1 h2
      exact h1 ▸ ⟨hnd, hdt, Nat.le_of_lt hlen⟩
    · by_cases hrej : p = env.destination ∨ p ∈ selected
      · by_cases hcap : env.maxHops - 1 ≤ selected.length
        · rw [selectLoop_reject_done_of env rl selected ins rest chans alog p hoc ha hrej hcap] at hout
          injection hout with h1 h2
          exact h1 ▸ ⟨hnd, hdt, Nat.le_of_lt hlen⟩
        · rw [selectLoop_reject_of env rl selected ins rest chans alog p hoc ha hrej hcap] at hout
          exact selectLoop_invariant env rl selected rest hnd hdt hlen sel' rl' hout
      · push_neg at hrej
        obtain ⟨hdest, hmem⟩ := hrej
        have hnd' : (selected ++ [p]).Nodup := by
          simp [List.nodup_append, hnd, hmem]
        have hdt' : env.destination ∉ selected ++ [p] := by
          simp only [List.mem_append, List.mem_singleton]
          rintro (h | h)
          · exact hdt h
          · exact hdest h.symm
        by_cases hcap : env.maxHops - 1 ≤ selected.length + 1
        · rw [selectLoop_accept_done_of env rl selected ins rest chans alog p hoc ha hdest hmem hcap] at hout
          injection hout with h1 h2
          refine h1 ▸ ⟨hnd', hdt', ?_⟩
          simpa using hlen
        · rw [selectLoop_accept_cont_of env rl selected ins rest chans alog p hoc ha hdest hmem hcap] at hout
          have hlen' : (selected ++ [p]).length < env.maxHops - 1 := by
            simp only [List.length_append, List.length_singleton]
            omega
          exact selectLoop_invariant env rl (selected ++ [p]) rest hnd' hdt' hlen' sel' rl' hout
termination_by ins.length
decreasing_by
  all_goals exact awaitLine_rest_lt env ins _ _ _ ha

/-- If the open-channels query never rejects, no exception ever escapes
the selector: the only other failure source, `checkPeerIdInput`, is
wrapped in try/catch (lines 159-164). -/
theorem selectLoop_no_raise (env : Env) (rl : RlState) (selected : List PeerId)
    (ins : List String)
    (hok : ∀ p, ∃ l, env.getOpenChannels p = Except.ok l) :
    ∀ rl', (selectLoop env rl selected ins).out ≠ Outcome.raised rl' := by
  intro rl' hout
  rcases hoc : env.getOpenChannels (refPeer env selected) with e | chans
  · obtain ⟨l, hl⟩ := hok (refPeer env selected)
    rw [hoc] at hl
    exact absurd hl (by simp)
  · rcases ha : awaitLine env ins with ⟨_ | ⟨_ | p, rest⟩, alog⟩
    · rw [selectLoop_hang_of env rl selected ins chans alog hoc ha] at hout
      simp at hout
    · rw [selectLoop_finish_of env rl selected ins rest chans alog hoc ha] at hout
      simp at hout
    · by_cases hrej : p = env.destination ∨ p ∈ selected
      · by_cases hcap : env.maxHops - 1 ≤ selected.length
        · rw [selectLoop_reject_done_of env rl selected ins rest chans alog p hoc ha hrej hcap] at hout
          simp at hout
        · rw [selectLoop_reject_of env rl selected ins rest chans alog p hoc ha hrej hcap] at hout
          exact selectLoop_no_raise env rl selected rest hok rl' hout
      · push_neg at hrej
        obtain ⟨hdest, hmem⟩ := hrej
        by_cases hcap : env.maxHops - 1 ≤ selected.length + 1
        · rw [selectLoop_accept_done_of env rl selected ins rest chans alog p hoc ha hdest hmem hcap] at hout
          simp at hout
        · rw [selectLoop_accept_cont_of env rl selected ins rest chans alog p hoc ha hdest hmem hcap] at hout
          exact selectLoop_no_raise env rl (selected ++ [p]) rest hok rl' hout
termination_by ins.length
decreasing_by
  all_goals exact awaitLine_rest_lt env ins _ _ _ ha

/-- Every await-phase of the loop installs, as completer, exactly the
prefix-completion closure over the rendered peers the directory returned
for the reference peer of that iteration (lines 128-130, 146-148). -/
theorem selectLoop_trace_completer (env : Env) (rl : RlState) (selected : List PeerId)
    (ins : List String) :
    ∀ t ∈ (selectLoop env rl selected ins).trace, ∃ chans,
      env.getOpenChannels (refPeer env t.selectedBefore) = Except.ok chans ∧
      t.rlAwait = rlAwaitState (chans.map env.toB58String) := by
  intro t ht
  rcases hoc : env.getOpenChannels (refPeer env selected) with e | chans
  · rw [selectLoop_raise env rl selected ins e hoc] at ht; simp at ht
  · rcases ha : awaitLine env ins with ⟨_ | ⟨_ | p, rest⟩, alog⟩
    · rw [selectLoop_hang_of env rl selected ins chans alog hoc ha] at ht
      simp only [List.mem_singleton] at ht
      exact ht ▸ ⟨chans, hoc, rfl⟩
    · rw [selectLoop_finish_of env rl selected ins rest chans alog hoc ha] at ht
      simp only [List.mem_singleton] at ht
      exact ht ▸ ⟨chans, hoc, rfl⟩
    · by_cases hrej : p = env.destination ∨ p ∈ selected
      · by_cases hcap : env.maxHops - 1 ≤ selected.length
        · rw [selectLoop_reject_done_of env rl selected ins rest chans alog p hoc ha hrej hcap] at ht
          simp only [List.mem_singleton] at ht
          exact ht ▸ ⟨chans, hoc, rfl⟩
        · rw [selectLoop_reject_of env rl selected ins rest chans alog p hoc ha hrej hcap] at ht
          simp only [List.mem_cons] at ht
          rcases ht with ht | ht
          · exact ht ▸ ⟨chans, hoc, rfl⟩
          · exact selectLoop_trace_completer env rl selected rest t ht
      · push_neg at hrej
        obtain ⟨hdest, hmem⟩ := hrej
        by_cases hcap : env.maxHops - 1 ≤ selected.length + 1
        · rw [selectLoop_accept_done_of env rl selected ins rest chans alog p hoc ha hdest hmem hcap] at ht
          simp only [List.mem_singleton] at ht
          exact ht ▸ ⟨chans, hoc, rfl⟩
        · rw [selectLoop_accept_cont_of env rl selected ins rest chans alog p hoc ha hdest hmem hcap] at ht
          simp only [List.mem_cons] at ht
          rcases ht with ht | ht
          · exact ht ▸ ⟨chans, hoc, rfl⟩
          · exact selectLoop_trace_completer env rl (selected ++ [p]) rest t ht
termination_by ins.length
decreasing_by
  all_goals exact awaitLine_rest_lt env ins _ _ _ ha

/-- Whenever an iteration's candidate set is empty, the operator is told
so (lines 132-134): the notice appears in the printed log. -/
theorem selectLoop_trace_inform (env : Env) (rl : RlState) (selected : List PeerId)
    (ins : List String) :
    ∀ t ∈ (selectLoop env rl selected ins).trace,
      env.getOpenChannels (refPeer env t.selectedBefore) = Except.ok [] →
      Msg.noOpenChannels ∈ (selectLoop env rl selected ins).log := by
  intro t ht hempty
  rcases hoc : env.getOpenChannels (refPeer env selected) with e | chans
  · rw [selectLoop_raise env rl selected ins e hoc] at ht; simp at ht
  · have hhead : t.selectedBefore = selected →
        Msg.noOpenChannels ∈ headerMsgs env selected chans := by
      intro hsel
      rw [hsel] at hempty
      rw [hoc] at hempty
      injection hempty with hchans
      subst hchans
      simp [headerMsgs]
    rcases ha : awaitLine env ins with ⟨_ | ⟨_ | p, rest⟩, alog⟩
    · rw [selectLoop_hang_of env rl selected ins chans alog hoc ha] at ht ⊢
      simp only [List.mem_singleton] at ht
      have := hhead (by rw [ht])
      simp only [List.mem_append]
      exact Or.inl this
    · rw [selectLoop_finish_of env rl selected ins rest chans alog hoc ha] at ht ⊢
      simp only [List.mem_singleton] at ht
      have := hhead (by rw [ht])
      simp only [List.mem_append]
      exact Or.inl this
    · by_cases hrej : p = env.destination ∨ p ∈ selected
      · by_cases hcap : env.maxHops - 1 ≤ selected.length
        · rw [selectLoop_reject_done_of env rl selected ins rest chans alog p hoc ha hrej hcap] at ht ⊢
          simp only [List.mem_singleton] at ht
          have := hhead (by rw [ht])
          simp only [List.mem_append]
          exact Or.inl (Or.inl this)
        · rw [selectLoop_reject_of env rl selected ins rest chans alog p hoc ha hrej hcap] at ht ⊢
          simp only [List.mem_cons] at ht
          simp only [List.mem_append]
          rcases ht with ht | ht
          · exact Or.inl (Or.inl (Or.inl (hhead (by rw [ht]))))
          · exact Or.inr (selectLoop_trace_inform env rl selected rest t ht hempty)
      · push_neg at hrej
        obtain ⟨hdest, hmem⟩ := hrej
        by_cases hcap : env.maxHops - 1 ≤ selected.length + 1
        · rw [selectLoop_accept_done_of env rl selected ins rest chans alog p hoc ha hdest hmem hcap] at ht ⊢
          simp only [List.mem_singleton] at ht
          have := hhead (by rw [ht])
          simp only [List.mem_append]
          exact Or.inl this
        · rw [selectLoop_accept_cont_of env rl selected ins rest chans alog p hoc ha hdest hmem hcap] at ht ⊢
          simp only [List.mem_cons] at ht
          simp only [List.mem_append]
          rcases ht with ht | ht
          · exact Or.inl (Or.inl (hhead (by rw [ht])))
          · exact Or.inr (selectLoop_trace_inform env rl (selected ++ [p]) rest t ht hempty)
termination_by ins.length
decreasing_by
  all_goals exact awaitLine_rest_lt env ins _ _ _ ha

theorem awaitLine_congr (env env' : Env)
    (hcpi : env.checkPeerIdInput = env'.checkPeerIdInput) :
    ∀ ins, awaitLine env ins = awaitLine env' ins := by
  intro ins
  induction ins with
  | nil => rfl
  | cons q tl ih =>
    rw [awaitLine, awaitLine, hcpi]
    split
    · rfl
    · split
      · rw [ih]
      · rfl

/-- The returned path (and outcome generally) does not depend on what the
peer directory suggests: candidate peers feed only the completion hints
and the informational notice, never the acceptance of a typed entry.
(Manual entry is accepted the same way whatever the candidate set is,
provided the directory query itself does not reject.) -/
theorem selectLoop_out_candidates_indep (env : Env)
    (oc2 : PeerId → Except Unit (List PeerId)) (rl : RlState)
    (selected : List PeerId) (ins : List String)
    (hok : ∀ p, ∃ l, env.getOpenChannels p = Except.ok l)
    (hok2 : ∀ p, ∃ l, oc2 p = Except.ok l) :
    (selectLoop { env with getOpenChannels := oc2 } rl selected ins).out =
      (selectLoop env rl selected ins).out := by
  obtain ⟨chans, hoc⟩ := hok (refPeer env selected)
  obtain ⟨chans2, hoc2⟩ := hok2 (refPeer env selected)
  have hoc2' : ({ env with getOpenChannels := oc2 } : Env).getOpenChannels
      (refPeer { env with getOpenChannels := oc2 } selected) = Except.ok chans2 := hoc2
  have hcpi : env.checkPeerIdInput =
      ({ env with getOpenChannels := oc2 } : Env).checkPeerIdInput := rfl
  rcases ha : awaitLine env ins with ⟨_ | ⟨_ | p, rest⟩, alog⟩ <;>
    have ha2 : awaitLine { env with getOpenChannels := oc2 } ins = _ :=
      (awaitLine_congr env _ hcpi ins) ▸ ha
  · rw [selectLoop_hang_of env rl selected ins chans alog hoc ha,
      selectLoop_hang_of _ rl selected ins chans2 alog hoc2' ha2]
  · rw [selectLoop_finish_of env rl selected ins rest chans alog hoc ha,
      selectLoop_finish_of _ rl selected ins rest chans2 alog hoc2' ha2]
  · by_cases hrej : p = env.destination ∨ p ∈ selected
    · by_cases hcap : env.maxHops - 1 ≤ selected.length
      · rw [selectLoop_reject_done_of env rl selected ins rest chans alog p hoc ha hrej hcap,
          selectLoop_reject_done_of _ rl selected ins rest chans2 alog p hoc2' ha2 hrej hcap]
      · rw [selectLoop_reject_of env rl selected ins rest chans alog p hoc ha hrej hcap,
          selectLoop_reject_of _ rl selected ins rest chans2 alog p hoc2' ha2 hrej hcap]
        exact selectLoop_out_candidates_indep env oc2 rl selected rest hok hok2
    · push_neg at hrej
      obtain ⟨hdest, hmem⟩ := hrej
      by_cases hcap : env.maxHops - 1 ≤ selected.length + 1
      · rw [selectLoop_accept_done_of env rl selected ins rest chans alog p hoc ha hdest hmem hcap,
          selectLoop_accept_done_of _ rl selected ins rest chans2 alog p hoc2' ha2 hdest hmem hcap]
      · rw [selectLoop_accept_cont_of env rl selected ins rest chans alog p hoc ha hdest hmem hcap,
          selectLoop_accept_cont_of _ rl selected ins rest chans2 alog p hoc2' ha2 hdest hmem hcap]
        exact selectLoop_out_candidates_indep env oc2 rl (selected ++ [p]) rest hok hok2
termination_by ins.length
decreasing_by
  all_goals exact awaitLine_rest_lt env ins _ _ _ ha

/-- Two runs of an iteration whose await-phases resolve identically (same
resolution, same remaining input) differ at most in the parse-error
reports of that await-phase: outcome and trace agree, and the logs agree
except for the await-phase segment. -/
theorem selectLoop_await_congr (env : Env) (rl : RlState) (selected : List PeerId)
    (ins ins' : List String) (r : Option (Option PeerId × List String))
    (alog alog' : List Msg) (chans : List PeerId)
    (hoc : env.getOpenChannels (refPeer env selected) = Except.ok chans)
    (ha : awaitLine env ins = (r, alog)) (ha' : awaitLine env ins' = (r, alog')) :
    (selectLoop env rl selected ins).out = (selectLoop env rl selected ins').out ∧
    (selectLoop env rl selected ins).trace = (selectLoop env rl selected ins').trace ∧
    ∃ tl, (selectLoop env rl selected ins).log =
            headerMsgs env selected chans ++ alog ++ tl ∧
          (selectLoop env rl selected ins').log =
            headerMsgs env selected chans ++ alog' ++ tl := by
  rcases r with _ | ⟨_ | p, rest⟩
  · rw [selectLoop_hang_of env rl selected ins chans alog hoc ha,
      selectLoop_hang_of env rl selected ins' chans alog' hoc ha']
    exact ⟨rfl, rfl, [], by simp, by simp⟩
  · rw [selectLoop_finish_of env rl selected ins rest chans alog hoc ha,
      selectLoop_finish_of env rl selected ins' rest chans alog' hoc ha']
    exact ⟨rfl, rfl, [], by simp, by simp⟩
  · by_cases hrej : p = env.destination ∨ p ∈ selected
    · by_cases hcap : env.maxHops - 1 ≤ selected.length
      · rw [selectLoop_reject_done_of env rl selected ins rest chans alog p hoc ha hrej hcap,
          selectLoop_reject_done_of env rl selected ins' rest chans alog' p hoc ha' hrej hcap]
        exact ⟨rfl, rfl, [rejectMsg env p], by simp, by simp⟩
      · rw [selectLoop_reject_of env rl selected ins rest chans alog p hoc ha hrej hcap,
          selectLoop_reject_of env rl selected ins' rest chans alog' p hoc ha' hrej hcap]
        exact ⟨rfl, rfl, [rejectMsg env p] ++ (selectLoop env rl selected rest).log,
          by simp, by simp⟩
    · push_neg at hrej
      obtain ⟨hdest, hmem⟩ := hrej
      by_cases hcap : env.maxHops - 1 ≤ selected.length + 1
      · rw [selectLoop_accept_done_of env rl selected ins rest chans alog p hoc ha hdest hmem hcap,
          selectLoop_accept_done_of env rl selected ins' rest chans alog' p hoc ha' hdest hmem hcap]
        exact ⟨rfl, rfl, [], by simp, by simp⟩
      · rw [selectLoop_accept_cont_of env rl selected ins rest chans alog p hoc ha hdest hmem hcap,
          selectLoop_accept_cont_of env rl selected ins' rest chans alog' p hoc ha' hdest hmem hcap]
        exact ⟨rfl, rfl, (selectLoop env rl (selected ++ [p]) rest).log, by simp, by simp⟩

/-!
## `ListOpenChannels` (src/commands/listOpenChannels.ts)

Promise-returning collaborator calls are modelled in the `Except String`
monad: `.error msg` stands for a rejected promise / thrown error carrying
`err.message = msg`.
-/

/-- One channel instance as used by `ListOpenChannels.execute`: each
awaited property may reject; `counterparty` is read synchronously and may
be `undefined` (the `if (!counterParty)` check at line 85). -/
structure Channel where
  channelId : Except String (List Nat)
  counterparty : Option (List Nat)
  balance : Except String Int
  balance_a : Except String Int
  status : Except String String
  offChainCounterparty : Except String (List Nat)

/-- Collaborators of `ListOpenChannels`: payment-channel utilities
(`utils.isPartyA`, `types.Balance.DECIMALS`), the account address, the
open-channel query `getMyOpenChannelInstances` from `../utils`, peer-id
conversion, and the formatting helpers from `../utils` / `chalk`. -/
structure ListEnv where
  isPartyA : List Nat → List Nat → Bool
  DECIMALS : Int
  address : Except String (List Nat)
  channels : Except String (List Channel)
  pubKeyToPeerId : List Nat → Except String (List Nat)
  toB58String : List Nat → String
  u8aToHex : List Nat → String
  moveDecimalPoint : String → Int → String
  styleValue : String → String → String
  chalkGray : String → String
  getPaddingLength : List String → Nat

/-- JavaScript `String.prototype.padEnd` with spaces. -/
def padEnd (s : String) (n : Nat) : String :=
  s ++ String.mk (List.replicate (n - s.length) ' ')

/-- `ListOpenChannels.generateOutput` (lines 23-65): builds the five
name/value display rows and joins them with `''`. -/
def generateOutput (env : ListEnv) (id myBalance totalBalance : String)
    (peerId : Option String) (status : Option String) : String :=
  let toDisplay : List (String × String) :=
    [ ("Channel", env.styleValue id "hash"),
      ("CounterParty",
        match peerId with
        | some p => env.styleValue p "peerId"
        | none => env.chalkGray "pre-opened"),
      ("Status",
        match status with
        | some s => env.styleValue s "highlight"
        | none => env.chalkGray "UNKNOWN"),
      ("Total Balance", env.styleValue totalBalance "number"),
      ("My Balance", env.styleValue myBalance "number") ]
  let paddingLength := env.getPaddingLength (toDisplay.map Prod.fst)
  String.join (toDisplay.map (fun o => "\n" ++ padEnd o.1 paddingLength ++ ":  " ++ o.2))

/-- The body of the `for (const channel of channels)` loop (lines 81-115)
for one channel, in await order. -/
def channelOutput (env : ListEnv) (self : List Nat) (c : Channel) :
    Except String String := do
  let cid ← c.channelId
  let id := env.u8aToHex cid
  match c.counterparty with
  | none => pure (generateOutput env id "0" "0" none none)
  | some counterParty => do
    let selfIsPartyA := env.isPartyA self counterParty
    let bal ← c.balance
    let totalBalance := env.moveDecimalPoint (toString bal) (env.DECIMALS * (-1))
    let myBalanceRaw ←
      if selfIsPartyA then do
        let a ← c.balance_a
        pure (toString a)
      else do
        let b ← c.balance
        let a ← c.balance_a
        pure (toString (b - a))
    let myBalance := env.moveDecimalPoint myBalanceRaw (env.DECIMALS * (-1))
    let pk ← c.offChainCounterparty
    let pid ← env.pubKeyToPeerId pk
    let status ← c.status
    pure (generateOutput env id myBalance totalBalance
      (some (env.toB58String pid)) (some status))

/-- The body of the `try` block of `ListOpenChannels.execute`
(lines 71-117): await the address and channel list, shortcut on an empty
list, otherwise render each channel and join with `'\n\n'`. -/
def executeBody (env : ListEnv) : Except String String := do
  let self ← env.address
  let channels ← env.channels
  if channels.length = 0 then
    pure "\nNo open channels found."
  else do
    let result ← channels.mapM (channelOutput env self)
    pure (String.intercalate "\n\n" result)

/-- `ListOpenChannels.execute` (lines 70-121): the whole body is wrapped
in try/catch; a caught error is returned as
`styleValue(err.message, 'failure')`. -/
def executeListOpenChannels (env : ListEnv) : String :=
  match executeBody env with
  | Except.ok s => s
  | Except.error msg => env.styleValue msg "failure"

/-!
## Concrete instances used by witnesses and counterexamples
-/

/-- A concrete collaborator environment: the parser accepts `"a"` (peer
5), `"b"` (peer 7) and `"me"` (the local node's own peer 0) and throws on
everything else; the peer directory always answers with no open channels;
`MAX_HOPS = 3`; destination is peer 9. -/
def envA : Env :=
  { checkPeerIdInput := fun q =>
      if q = "a" then some 5 else if q = "b" then some 7
      else if q = "me" then some 0 else none
    getOpenChannels := fun _ => Except.ok []
    toB58String := fun n => toString n
    selfPeerId := 0
    destination := 9
    maxHops := 3 }

/-- Like `envA` but the peer directory's query always rejects. -/
def envB : Env :=
  { envA with getOpenChannels := fun _ => Except.error () }

/-- A readline state with a pre-existing prompt, completer and one
pre-existing `'line'` listener. -/
def rl0 : RlState := ⟨"> ", CompleterV.ext 0, [ListenerV.ext 0]⟩

/-!
## The claims
-/

/-- C1: For every sequence of submitted lines and every collaborator
behaviour, a path returned by `selectIntermediateNodes` has at most
`MAX_HOPS - 1` entries, contains no duplicate peer identifiers, and never
contains the destination identifier.  (Stated for `MAX_HOPS ≥ 2`; the
hosting node's constant is 3.) -/
theorem claim_C1 (env : Env) (rl : RlState) (ins : List String)
    (sel : List PeerId) (rl' : RlState) (hmax : 2 ≤ env.maxHops)
    (hret : (selectIntermediateNodes env rl ins).out = Outcome.returned sel rl') :
    sel.length ≤ env.maxHops - 1 ∧ sel.Nodup ∧ env.destination ∉ sel := by
  have h := selectLoop_invariant env rl [] ins List.nodup_nil (List.not_mem_nil _)
    (by simp; omega) sel rl' hret
  exact ⟨h.2.2, h.1, h.2.1⟩

theorem claim_C1_witness :
    2 ≤ envA.maxHops ∧
    (selectIntermediateNodes envA rl0 ["a", ""]).out = Outcome.returned [5] rl0 ∧
    (([5] : List PeerId).length ≤ envA.maxHops - 1 ∧ ([5] : List PeerId).Nodup ∧
      envA.destination ∉ ([5] : List PeerId)) := by
  have hrun : (selectIntermediateNodes envA rl0 ["a", ""]).out = Outcome.returned [5] rl0 := by
    show (selectLoop envA rl0 [] ["a", ""]).out = _
    rw [selectLoop_accept_cont_of envA rl0 [] ["a", ""] [""] [] [] 5 rfl (by decide)
      (by decide) (by decide) (by decide)]
    simp only [List.nil_append]
    rw [selectLoop_finish_of envA rl0 [5] [""] [] [] [] rfl (by decide)]
  exact ⟨by decide, hrun, claim_C1 envA rl0 ["a", ""] [5] rl0 (by decide) hrun⟩

/-- C2 counterexample: the claim says a whitespace-only submission yields
`Finished` with the path accumulated so far, unchanged by further input.
In the code the emptiness test (line 153) only catches `''` and `'\n'`:
the single-space line `" "` is handed to the parser instead, the loop
keeps running, and the run below goes on to accept peer 5 — so the final
path `[5]` differs from the path `[]` accumulated when `" "` was
submitted. -/
theorem claim_C2_counterexample :
    (∀ c ∈ (" " : String).toList, c = ' ') ∧ (" " : String) ≠ "" ∧
    (selectIntermediateNodes envA rl0 [" ", "a", ""]).out = Outcome.returned [5] rl0 ∧
    ([5] : List PeerId) ≠ [] := by
  refine ⟨by decide, by decide, ?_, by decide⟩
  show (selectLoop envA rl0 [] [" ", "a", ""]).out = _
  rw [selectLoop_accept_cont_of envA rl0 [] [" ", "a", ""] [""] [] [Msg.parseError " "] 5
    rfl (by decide) (by decide) (by decide) (by decide)]
  simp only [List.nil_append]
  rw [selectLoop_finish_of envA rl0 [5] [""] [] [] [] rfl (by decide)]

/-- C2 (amended): submitting an *empty* line — `''` or a lone `'\n'`
(other whitespace-only lines are handed to the parser like any other
input) — at any point of the selection loop terminates the loop and
returns exactly the path accumulated so far, unchanged by any further
input, with the readline state restored. -/
theorem claim_C2_amended (env : Env) (rl : RlState) (selected : List PeerId)
    (q : String) (rest : List String) (chans : List PeerId)
    (hoc : env.getOpenChannels (refPeer env selected) = Except.ok chans)
    (hq : q = "\n" ∨ q = "" ∨ q.length = 0) :
    selectLoop env rl selected (q :: rest) =
      ⟨Outcome.returned selected rl, headerMsgs env selected chans,
       [⟨selected, rlAwaitState (chans.map env.toB58String)⟩]⟩ := by
  rw [selectLoop_finish_of env rl selected (q :: rest) rest chans [] hoc
    (awaitLine_cons_finish env q rest hq)]
  simp

theorem claim_C2_amended_witness :
    selectLoop envA rl0 [5] ["", "junk"] =
      ⟨Outcome.returned [5] rl0, [Msg.promptSelect 1, Msg.noOpenChannels],
       [⟨[5], rlAwaitState []⟩]⟩ := by
  rw [claim_C2_amended envA rl0 [5] "" ["junk"] [] rfl (by decide)]
  decide

/-- C3: whenever the selection loop ends by returning, the readline
interface's prompt, completer and `'line'` listeners are exactly the
values they had before the loop began (lines 136-148 save them, lines
197-202 restore them on every iteration). -/
theorem claim_C3 (env : Env) (rl : RlState) (ins : List String)
    (sel : List PeerId) (rl' : RlState)
    (hret : (selectIntermediateNodes env rl ins).out = Outcome.returned sel rl') :
    rl'.prompt = rl.prompt ∧ rl'.completer = rl.completer ∧
      rl'.listeners = rl.listeners := by
  have h := selectLoop_restores_rl env rl [] ins sel rl' hret
  exact ⟨by rw [h], by rw [h], by rw [h]⟩

theorem claim_C3_witness :
    (selectIntermediateNodes envA rl0 [""]).out = Outcome.returned [] rl0 ∧
    (rl0.prompt = rl0.prompt ∧ rl0.completer = rl0.completer ∧
      rl0.listeners = rl0.listeners) := by
  have hrun : (selectIntermediateNodes envA rl0 [""]).out = Outcome.returned [] rl0 := by
    show (selectLoop envA rl0 [] [""]).out = _
    rw [selectLoop_finish_of envA rl0 [] [""] [] [] [] rfl (by decide)]
  exact ⟨hrun, claim_C3 envA rl0 [""] [] rl0 hrun⟩

/-- C4: when accepting a parsed, non-destination, not-yet-selected peer
brings the path length to `MAX_HOPS - 1`, the loop terminates after that
iteration — the result does not depend on `rest`, so no empty-line
submission is needed and any further input is ignored. -/
theorem claim_C4 (env : Env) (rl : RlState) (selected : List PeerId)
    (q : String) (rest : List String) (chans : List PeerId) (p : PeerId)
    (hoc : env.getOpenChannels (refPeer env selected) = Except.ok chans)
    (hq : ¬(q = "\n" ∨ q = "" ∨ q.length = 0))
    (hp : env.checkPeerIdInput q = some p)
    (hdest : p ≠ env.destination) (hmem : p ∉ selected)
    (hcap : env.maxHops - 1 ≤ selected.length + 1) :
    selectLoop env rl selected (q :: rest) =
      ⟨Outcome.returned (selected ++ [p]) rl, headerMsgs env selected chans,
       [⟨selected, rlAwaitState (chans.map env.toB58String)⟩]⟩ := by
  rw [selectLoop_accept_done_of env rl selected (q :: rest) rest chans [] p hoc
    (awaitLine_cons_parsed env q rest p hq hp) hdest hmem hcap]
  simp

theorem claim_C4_witness :
    (selectIntermediateNodes envA rl0 ["b", "a", "zzz", "x"]).out =
      Outcome.returned [7, 5] rl0 := by
  show (selectLoop envA rl0 [] ["b", "a", "zzz", "x"]).out = _
  rw [selectLoop_accept_cont_of envA rl0 [] ["b", "a", "zzz", "x"] ["a", "zzz", "x"]
    [] [] 7 rfl (by decide) (by decide) (by decide) (by decide)]
  simp only [List.nil_append]
  rw [claim_C4 envA rl0 [7] "a" ["zzz", "x"] [] 5 rfl (by decide) (by decide)
    (by decide) (by decide) (by decide)]
  rfl

/-- C5: a successfully parsed identifier equal to the destination, or one
already present in the path, is rejected with a report to the operator,
the path is unchanged, and the loop continues with the next iteration on
the remaining input. -/
theorem claim_C5 (env : Env) (rl : RlState) (selected : List PeerId)
    (q : String) (rest : List String) (chans : List PeerId) (p : PeerId)
    (hoc : env.getOpenChannels (refPeer env selected) = Except.ok chans)
    (hq : ¬(q = "\n" ∨ q = "" ∨ q.length = 0))
    (hp : env.checkPeerIdInput q = some p)
    (hrej : p = env.destination ∨ p ∈ selected)
    (hcap : ¬(env.maxHops - 1 ≤ selected.length)) :
    selectLoop env rl selected (q :: rest) =
      ⟨(selectLoop env rl selected rest).out,
       headerMsgs env selected chans ++ [rejectMsg env p] ++
         (selectLoop env rl selected rest).log,
       ⟨selected, rlAwaitState (chans.map env.toB58String)⟩ ::
         (selectLoop env rl selected rest).trace⟩ := by
  rw [selectLoop_reject_of env rl selected (q :: rest) rest chans [] p hoc
    (awaitLine_cons_parsed env q rest p hq hp) hrej hcap]
  simp

theorem claim_C5_witness :
    selectLoop envA rl0 [5] ["a", ""] =
      ⟨Outcome.returned [5] rl0,
       [Msg.promptSelect 1, Msg.noOpenChannels, Msg.alreadySelected,
        Msg.promptSelect 1, Msg.noOpenChannels],
       [⟨[5], rlAwaitState []⟩, ⟨[5], rlAwaitState []⟩]⟩ := by
  rw [claim_C5 envA rl0 [5] "a" [""] [] 5 rfl (by decide) (by decide)
    (Or.inr (by decide)) (by decide)]
  rw [selectLoop_finish_of envA rl0 [5] [""] [] [] [] rfl (by decide)]
  decide

/-- C6: a line the parser fails on leaves the path unchanged, is reported
to the operator, and is discarded: the loop stays in the same await-phase
(same trace, including the same installed candidates) and the rest of the
run is exactly as if the malformed line had never been submitted — in
particular the send is not aborted. -/
theorem claim_C6 (env : Env) (rl : RlState) (selected : List PeerId)
    (q : String) (rest : List String) (chans : List PeerId)
    (hoc : env.getOpenChannels (refPeer env selected) = Except.ok chans)
    (hq : ¬(q = "\n" ∨ q = "" ∨ q.length = 0))
    (hp : env.checkPeerIdInput q = none) :
    (selectLoop env rl selected (q :: rest)).out =
      (selectLoop env rl selected rest).out ∧
    (selectLoop env rl selected (q :: rest)).trace =
      (selectLoop env rl selected rest).trace ∧
    ∃ tl, (selectLoop env rl selected rest).log =
            headerMsgs env selected chans ++ tl ∧
          (selectLoop env rl selected (q :: rest)).log =
            headerMsgs env selected chans ++ Msg.parseError q :: tl := by
  have ha : awaitLine env (q :: rest) =
      ((awaitLine env rest).1, Msg.parseError q :: (awaitLine env rest).2) :=
    awaitLine_cons_failed env q rest hq hp
  have h := selectLoop_await_congr env rl selected (q :: rest) rest
    (awaitLine env rest).1 (Msg.parseError q :: (awaitLine env rest).2)
    (awaitLine env rest).2 chans hoc ha rfl
  obtain ⟨h1, h2, tl, hL, hR⟩ := h
  refine ⟨h1, h2, (awaitLine env rest).2 ++ tl, ?_, ?_⟩
  · rw [hR]; simp
  · rw [hL]; simp

theorem claim_C6_witness :
    (selectLoop envA rl0 [] ["zzz", ""]).out = (selectLoop envA rl0 [] [""]).out ∧
    Msg.parseError "zzz" ∈ (selectLoop envA rl0 [] ["zzz", ""]).log := by
  have h := claim_C6 envA rl0 [] "zzz" [""] [] rfl (by decide) (by decide)
  obtain ⟨h1, -, tl, -, hL⟩ := h
  exact ⟨h1, by rw [hL]; simp⟩

/-- C7 counterexample: the claim says that for *every* behaviour of the
collaborators — the peer-directory query included — no exception
propagates out of the selector.  But the
`await getOpenChannels(this.node, lastSelected)` at line 129 has no
surrounding try/catch: with a directory whose query rejects, the very
first iteration makes the selector's promise reject (outcome `raised`),
before any input is read. -/
theorem claim_C7_counterexample :
    (selectIntermediateNodes envB rl0 ["a"]).out = Outcome.raised rl0 := by
  show (selectLoop envB rl0 [] ["a"]).out = _
  rw [selectLoop_raise envB rl0 [] ["a"] () rfl]

/-- C7 (amended): the selector never raises from operator input — parse
failures of `checkPeerIdInput` are caught, reported and the loop
continues (lines 159-164) — and, provided the open-channels query never
rejects, no exception at all propagates out of `selectIntermediateNodes`.
A rejection of the open-channels query itself, however, does escape the
selector (it is surfaced by the caller as a single failure line for the
send attempt). -/
theorem claim_C7_amended (env : Env) (rl : RlState) (ins : List String)
    (hok : ∀ p, ∃ l, env.getOpenChannels p = Except.ok l) :
    ∀ rl', (selectIntermediateNodes env rl ins).out ≠ Outcome.raised rl' :=
  selectLoop_no_raise env rl [] ins hok

theorem claim_C7_amended_witness :
    (selectIntermediateNodes envA rl0 ["zzz", "a", "x"]).out ≠ Outcome.raised rl0 :=
  claim_C7_amended envA rl0 ["zzz", "a", "x"] (fun _ => ⟨[], rfl⟩) rl0

/-- C8: in every iteration the installed completion-candidate set is the
rendered list of peers the directory returns for the reference peer (the
last peer added, or the local node's own identifier when the path is
empty — `refPeer`); when that candidate set is empty the operator is
informed; and manual entry is accepted identically whatever the directory
suggests: the outcome is unchanged under any replacement of the
(non-rejecting) directory. -/
theorem claim_C8 (env : Env) (rl : RlState) (selected : List PeerId)
    (ins : List String) :
    (∀ t ∈ (selectLoop env rl selected ins).trace, ∃ chans,
        env.getOpenChannels (refPeer env t.selectedBefore) = Except.ok chans ∧
        t.rlAwait = rlAwaitState (chans.map env.toB58String)) ∧
    (∀ t ∈ (selectLoop env rl selected ins).trace,
        env.getOpenChannels (refPeer env t.selectedBefore) = Except.ok [] →
        Msg.noOpenChannels ∈ (selectLoop env rl selected ins).log) ∧
    (∀ oc2 : PeerId → Except Unit (List PeerId),
        (∀ p, ∃ l, env.getOpenChannels p = Except.ok l) →
        (∀ p, ∃ l, oc2 p = Except.ok l) →
        (selectLoop { env with getOpenChannels := oc2 } rl selected ins).out =
          (selectLoop env rl selected ins).out) :=
  ⟨selectLoop_trace_completer env rl selected ins,
   selectLoop_trace_inform env rl selected ins,
   fun oc2 h1 h2 => selectLoop_out_candidates_indep env oc2 rl selected ins h1 h2⟩

theorem claim_C8_witness :
    Msg.noOpenChannels ∈ (selectLoop envA rl0 [] ["x"]).log ∧
    (⟨[], rlAwaitState []⟩ : IterTrace).rlAwait = rlAwaitState [] := by
  have hmem : (⟨[], rlAwaitState []⟩ : IterTrace) ∈ (selectLoop envA rl0 [] ["x"]).trace := by
    rw [selectLoop_hang_of envA rl0 [] ["x"] [] [Msg.parseError "x"] rfl (by decide)]
    decide
  exact ⟨(claim_C8 envA rl0 [] ["x"]).2.1 ⟨[], rlAwaitState []⟩ hmem rfl, rfl⟩

/-- C9: `ListOpenChannels.execute` never throws: its whole body is in a
try/catch, so every collaborator error comes back to the caller as the
formatted failure string `styleValue(err.message, 'failure')`; and when
the address read succeeds and the open-channel list is empty it returns
the fixed string `'\nNo open channels found.'`. -/
theorem claim_C9 (env : ListEnv) :
    (∀ msg, executeBody env = Except.error msg →
      executeListOpenChannels env = env.styleValue msg "failure") ∧
    (∀ a, env.address = Except.ok a → env.channels = Except.ok [] →
      executeListOpenChannels env = "\nNo open channels found.") := by
  constructor
  · intro msg h
    rw [executeListOpenChannels, h]
  · intro a ha hc
    have hbody : executeBody env = Except.ok "\nNo open channels found." := by
      rw [executeBody, ha, hc]
      rfl
    rw [executeListOpenChannels, hbody]

/-- A concrete `ListEnv` whose collaborators all succeed and whose
open-channel list is empty. -/
def listEnvA : ListEnv :=
  { isPartyA := fun _ _ => true
    DECIMALS := 18
    address := Except.ok [1, 2]
    channels := Except.ok []
    pubKeyToPeerId := fun u => Except.ok u
    toB58String := fun _ => "pid"
    u8aToHex := fun _ => "0x"
    moveDecimalPoint := fun s _ => s
    styleValue := fun v s => s ++ ":" ++ v
    chalkGray := fun v => v
    getPaddingLength := fun _ => 13 }

/-- Like `listEnvA` but the open-channel query rejects with `"boom"`. -/
def listEnvB : ListEnv :=
  { listEnvA with channels := Except.error "boom" }

/-- Like `listEnvA` but with one channel whose balance read rejects with
`"bal"`. -/
def listEnvC : ListEnv :=
  { listEnvA with
    channels := Except.ok
      [{ channelId := Except.ok [1]
         counterparty := some [2]
         balance := Except.error "bal"
         balance_a := Except.ok 0
         status := Except.ok "OPEN"
         offChainCounterparty := Except.ok [3] }] }

theorem claim_C9_witness :
    executeListOpenChannels listEnvA = "\nNo open channels found." ∧
    executeListOpenChannels listEnvB = listEnvB.styleValue "boom" "failure" ∧
    executeListOpenChannels listEnvC = listEnvC.styleValue "bal" "failure" := by
  refine ⟨?_, ?_, ?_⟩
  · exact (claim_C9 listEnvA).2 [1, 2] rfl rfl
  · exact (claim_C9 listEnvB).1 "boom" rfl
  · exact (claim_C9 listEnvC).1 "bal" rfl

/-- C10: the local node's own peer identifier is accepted as an
intermediate hop exactly like any other peer (the `@TODO: handle self`
at line 178 is not implemented): when it parses, differs from the
destination and is not yet in the path, it is appended. -/
theorem claim_C10 (env : Env) (rl : RlState) (selected : List PeerId)
    (q : String) (rest : List String) (chans : List PeerId)
    (hoc : env.getOpenChannels (refPeer env selected) = Except.ok chans)
    (hq : ¬(q = "\n" ∨ q = "" ∨ q.length = 0))
    (hp : env.checkPeerIdInput q = some env.selfPeerId)
    (hdest : env.selfPeerId ≠ env.destination)
    (hmem : env.selfPeerId ∉ selected) :
    (selectLoop env rl selected (q :: rest)).out =
      if env.maxHops - 1 ≤ selected.length + 1 then
        Outcome.returned (selected ++ [env.selfPeerId]) rl
      else (selectLoop env rl (selected ++ [env.selfPeerId]) rest).out := by
  by_cases hcap : env.maxHops - 1 ≤ selected.length + 1
  · rw [if_pos hcap, selectLoop_accept_done_of env rl selected (q :: rest) rest chans []
      env.selfPeerId hoc (awaitLine_cons_parsed env q rest env.selfPeerId hq hp)
      hdest hmem hcap]
  · rw [if_neg hcap, selectLoop_accept_cont_of env rl selected (q :: rest) rest chans []
      env.selfPeerId hoc (awaitLine_cons_parsed env q rest env.selfPeerId hq hp)
      hdest hmem hcap]

theorem claim_C10_witness :
    (selectLoop envA rl0 [7] ["me", "zzz"]).out = Outcome.returned [7, 0] rl0 := by
  rw [claim_C10 envA rl0 [7] "me" ["zzz"] [] rfl (by decide) (by decide)
    (by decide) (by decide)]
  decide
